import Mathlib

/-!
# File-vault: verification of the frontend service layer and the
deduplicating storage core

Shallow embedding of `src/frontend/src/services/fileService.ts`,
`src/frontend/src/components/FileFilter.tsx`,
`src/frontend/src/components/StorageStats.tsx`, the `FileList` component,
and a spec-modelled state machine for the deduplicating reference ledger
(the backend engine itself is not part of the checked sources).

Conventions: JavaScript numbers that are in practice non-negative integers
are modelled as `Nat` (with `WithTop Nat` where the code uses `Infinity`);
HTTP outcomes as `Except`; the query string as an association list of
key/value pairs in append order.
-/

namespace FileVault

/-- Constant `API_URL` from fileService.ts (default branch of the env lookup). -/
def API_URL : String := "http://localhost:8000/api"

/-! ## fileService.uploadFile -/

/-- Constant `MAX_FILE_SIZE = 10 * 1024 * 1024` from `fileService.uploadFile`. -/
def MAX_FILE_SIZE : Nat := 10 * 1024 * 1024

/-- Function `fileService.uploadFile`, embedded as a function of the size of
the file in
bytes.  The result is the client-side outcome (`Except.error` models the
thrown `Error`) paired with the trace of network requests issued. -/
def uploadFile (fileSize : Nat) : Except String Unit × List String :=
  if fileSize > MAX_FILE_SIZE then
    (Except.error "Maximum file size allowed is 10MB", [])
  else
    (Except.ok (), ["POST " ++ API_URL ++ "/files/"])

/-! ## fileService.getFiles: query-string construction -/

/-- The `GetFilesParams` parameter bag of `fileService.getFiles`; `none`
models an absent (`undefined`) field. -/
structure GetFilesParams where
  page : Option Nat := none
  search : Option String := none
  filename : Option String := none
  file_type : Option String := none
  min_size : Option Nat := none
  max_size : Option Nat := none
  date_after : Option Nat := none
  date_before : Option Nat := none

/-- A query pair appended under `if (v)` where `v : string | undefined`:
present iff defined and non-empty (JS string truthiness). -/
def optStringParam (key : String) (v : Option String) : List (String × String) :=
  match v with
  | some s => if s = "" then [] else [(key, s)]
  | none => []

/-- A query pair appended under `if (v !== undefined)` where `v : number |
undefined`: present iff defined. -/
def optNumParam (key : String) (v : Option Nat) : List (String × String) :=
  match v with
  | some n => [(key, toString n)]
  | none => []

/-- A query pair appended under `if (v)` where `v : number | undefined`:
present iff defined and non-zero (JS number truthiness). -/
def optTruthyNumParam (key : String) (v : Option Nat) : List (String × String) :=
  match v with
  | some n => if n = 0 then [] else [(key, toString n)]
  | none => []

/-- The `URLSearchParams` built by `fileService.getFiles`, in append
order.  `page` defaults to `1` and is always appended; the other fields
follow the guards of the source (`if (search)`, `if (min_size !== undefined)`,
`if (date_after)`, ...). -/
def buildQuery (p : GetFilesParams) : List (String × String) :=
  ("page", toString (p.page.getD 1)) ::
    (optStringParam "search" p.search ++
     optStringParam "filename" p.filename ++
     optStringParam "file_type" p.file_type ++
     optNumParam "min_size" p.min_size ++
     optNumParam "max_size" p.max_size ++
     optTruthyNumParam "date_after_epoch" p.date_after ++
     optTruthyNumParam "date_before_epoch" p.date_before)

/-! ## fileService.deleteFile -/

/-- Function `fileService.deleteFile`: a single `axios.delete` on
`{API_URL}/files/{id}/` whose outcome is returned unhandled (no
`try`/`catch`), so a rejection from the server is a rejection of the service.
`server` models the HTTP layer as a map from the request URL to its
outcome. -/
def deleteFile (server : String → Except String Unit) (id : String) :
    Except String Unit :=
  server (API_URL ++ "/files/" ++ id ++ "/")

/-! ## fileService.getFileTypes -/

/-- Function `fileService.getFileTypes`: the argument is the outcome of the
underlying `GET /files/file_types/` (`Except.ok d` carries
`response.data.file_types`, which may be absent).  The source wraps the
request in `try`/`catch` and returns `[]` from the `catch` branch. -/
def getFileTypes (resp : Except String (Option (List String))) :
    Except String (List String) :=
  match resp with
  | Except.ok d => Except.ok (d.getD [])
  | Except.error _ => Except.ok []

/-! ## FileList: pagination -/

/-- In `FileList`, `totalPages = Math.ceil(totalCount / 10)` (page size fixed
at 10; exact on these integer ranges). -/
def totalPages (totalCount : Nat) : Nat :=
  (totalCount + 9) / 10

/-- Function `FileList.handlePageChange`: the page actually set.  The source runs
`setCurrentPage(page)` only under `page >= 1 && page <= totalPages`; the
state keeps `currentPage` otherwise. -/
def handlePageChange (currentPage tot requested : Nat) : Nat :=
  if 1 ≤ requested ∧ requested ≤ tot then requested else currentPage

/-! ## FileFilter.handleSizeChange

Sizes flow in as JS numbers that are either non-negative integers or
`Infinity` (the "No maximum" option), modelled as `WithTop Nat`. -/

/-- Function `FileFilter.handleSizeChange`: the new `sizeRange` pair.  The source
sets `validatedMax = needsAdjustment ? min : max` with
`needsAdjustment = min > max`. -/
def handleSizeChange (min max : WithTop Nat) : WithTop Nat × WithTop Nat :=
  let validatedMax := if max < min then min else max
  (min, validatedMax)

/-! ## FileFilter.handleDateChange

Dates are modelled as epoch milliseconds (`Nat`); the day arithmetic of
`setHours` is taken in a fixed (UTC-like) civil day of 86 400 000 ms. -/

/-- Effect of `setHours(0, 0, 0, 0)`: the start of the day of the timestamp. -/
def startOfDay (t : Nat) : Nat :=
  t / 86400000 * 86400000

/-- Effect of `setHours(23, 59, 59, 999)`: the end of the day of the timestamp. -/
def endOfDay (t : Nat) : Nat :=
  t / 86400000 * 86400000 + 86399999

/-- Function `FileFilter.handleDateChange`: the new `dateRange` pair.  Mirrors the
source: the start (when present) is normalized to start-of-day; when both
bounds are present and `start > end` the end is replaced by (the original)
`start`; the end (when present) is then normalized to end-of-day. -/
def handleDateChange (start dEnd : Option Nat) : Option Nat × Option Nat :=
  let adjustedStart := start.map startOfDay
  let adjustedEnd0 : Option Nat :=
    match start, dEnd with
    | some s, some e => if e < s then some s else some e
    | _, _ => dEnd
  let adjustedEnd := adjustedEnd0.map endOfDay
  (adjustedStart, adjustedEnd)

/-! ## StorageStats component -/

/-- The `StorageStatsData` interface of StorageStats.tsx. -/
structure StorageStatsData where
  total_files : Nat
  total_references : Nat
  total_size : Nat
  total_space_saved : Nat
  total_size_readable : String
  total_space_saved_readable : String
  deriving DecidableEq

/-- Behavior of `Math.round`: round half toward positive infinity. -/
def jsRound (q : ℚ) : ℤ :=
  ⌊q + 1 / 2⌋

/-- The deduplication-efficiency computation of StorageStats.tsx:
`totalReferences = stats?.total_references || 0`,
`totalFiles = stats?.total_files || 1`, and
`efficiency = totalReferences === 0 ? 0
            : Math.round((totalReferences - totalFiles) / totalReferences * 100)`. -/
def efficiency (stats : Option StorageStatsData) : ℤ :=
  let totalReferences : Nat :=
    match stats with
    | some st => st.total_references
    | none => 0
  let totalFiles : Nat :=
    match stats with
    | some st => if st.total_files = 0 then 1 else st.total_files
    | none => 1
  if totalReferences = 0 then 0
  else jsRound (((totalReferences : ℚ) - (totalFiles : ℚ)) / (totalReferences : ℚ) * 100)

/-- The possible render results of the `StorageStats` component. -/
inductive Rendered where
  | loadingSkeleton : Rendered
  | errorPanel : String → Rendered
  | statsView : StorageStatsData → ℤ → Rendered
  deriving DecidableEq

/-- The render function of `StorageStats`: `error` is
the failure message when `queryError` is set and null otherwise; the loading
skeleton is returned first, then the error panel, then the stats cards
(whose efficiency figure is `efficiency stats`; the card defaults
`stats?.x || d` are part of the view and not modelled field-by-field). -/
def renderStorageStats (loading queryError : Bool)
    (stats : Option StorageStatsData) : Rendered :=
  if loading then Rendered.loadingSkeleton
  else if queryError then Rendered.errorPanel "Failed to load storage statistics"
  else Rendered.statsView (stats.getD ⟨0, 0, 0, 0, "0 B", "0 B"⟩) (efficiency stats)

/-! ## The deduplicating storage core (spec-modelled)

The backend engine (ReferenceLedger, BlobStore, StatsAggregator) is not
among the checked sources; the following state machine is modelled from
the data model and ledger contract of the spec.  Content digests and record
ids are opaque and modelled as `Nat`. -/

/-- Modelled from the spec: a **Blob**, the unique physical object for a
content digest, with its denormalization-relevant attributes
(`content_hash` key, `size_bytes`, live `reference_count`). -/
structure Blob where
  content_hash : Nat
  size_bytes : Nat
  reference_count : Nat
  deriving DecidableEq

/-- Modelled from the spec: a **FileRecord**, a logical upload referencing
the Blob with the same `content_hash`; `size_bytes` is the denormalized
copy of the size of the Blob. -/
structure FileRecord where
  id : Nat
  content_hash : Nat
  size_bytes : Nat
  deriving DecidableEq

/-- Modelled from the spec: the persisted system state — the keyed Blob
collection and the FileRecord collection. -/
structure SysState where
  blobs : List Blob
  records : List FileRecord
  deriving DecidableEq

/-- Modelled from the spec: `ReferenceLedger.resolve_or_create(digest,
size, ..., filename)`.  An existing Blob for the digest gets its reference
count incremented and a new FileRecord pointing at it, after the declared
size is verified against that of the Blob (mismatch is `IntegrityError`,
modelled as `none`); a fresh digest creates a Blob with
`reference_count = 1` and the FileRecord. -/
def resolve_or_create (s : SysState) (digest size id : Nat) : Option SysState :=
  match s.blobs.find? (fun b => b.content_hash == digest) with
  | some b =>
      if size = b.size_bytes then
        some { blobs := { b with reference_count := b.reference_count + 1 } ::
                 s.blobs.filter (fun b' => b'.content_hash != digest),
               records := ⟨id, digest, size⟩ :: s.records }
      else none
  | none =>
      some { blobs := ⟨digest, size, 1⟩ :: s.blobs,
             records := ⟨id, digest, size⟩ :: s.records }

/-- Modelled from the spec: `ReferenceLedger.release(file_record_id)`.
Deletes the FileRecord and decrements the reference count of its Blob; on
count-to-zero the Blob is handed to the GCReaper (removed).  An unknown
id is `NotFoundError`, modelled as `none`. -/
def release (s : SysState) (rid : Nat) : Option SysState :=
  match s.records.find? (fun r => r.id == rid) with
  | none => none
  | some r =>
      match s.blobs.find? (fun b => b.content_hash == r.content_hash) with
      | none => none
      | some b =>
          if b.reference_count ≤ 1 then
            some { blobs := s.blobs.filter (fun b' => b'.content_hash != r.content_hash),
                   records := s.records.eraseP (fun r' => r'.id == rid) }
          else
            some { blobs := { b with reference_count := b.reference_count - 1 } ::
                     s.blobs.filter (fun b' => b'.content_hash != r.content_hash),
                   records := s.records.eraseP (fun r' => r'.id == rid) }

/-- The reachable system states: everything obtainable from the empty
store by successful uploads and deletes. -/
inductive Reachable : SysState → Prop
  | init : Reachable ⟨[], []⟩
  | upload {s s' : SysState} {d sz i : Nat} :
      Reachable s → resolve_or_create s d sz i = some s' → Reachable s'
  | delete {s s' : SysState} {rid : Nat} :
      Reachable s → release s rid = some s' → Reachable s'

/-- Modelled from the spec: `total_size = Σ Blob.size_bytes` over the
(distinct) blobs. -/
def total_size (s : SysState) : Nat :=
  (s.blobs.map Blob.size_bytes).sum

/-- Σ FileRecord.size_bytes over all records. -/
def sumRecSizes (s : SysState) : Nat :=
  (s.records.map FileRecord.size_bytes).sum

/-- Σ reference_count · size_bytes over the blobs (the record sizes
regrouped by digest). -/
def sumBlobWeighted (s : SysState) : Nat :=
  (s.blobs.map (fun b => b.reference_count * b.size_bytes)).sum

/-- Modelled from the spec: the snapshot field `total_space_saved =
Σ FileRecord.size_bytes − total_size`, taken in `ℤ` so that the
non-negativity claim is a real statement. -/
def total_space_saved (s : SysState) : ℤ :=
  (sumRecSizes s : ℤ) - (total_size s : ℤ)

/-- The ledger invariant: blob digests are unique; the digest of every record
resolves to a blob of the (denormalized) record size; the reference count
reference count is exactly the number of records pointing at it and is
positive; and the record sizes regroup into the reference-weighted blob
sizes. -/
def Inv (s : SysState) : Prop :=
  (s.blobs.map Blob.content_hash).Nodup ∧
  (∀ r ∈ s.records, ∃ b ∈ s.blobs,
      b.content_hash = r.content_hash ∧ b.size_bytes = r.size_bytes) ∧
  (∀ b ∈ s.blobs,
      b.reference_count = s.records.countP (fun r => r.content_hash == b.content_hash)) ∧
  (∀ b ∈ s.blobs, 1 ≤ b.reference_count) ∧
  sumRecSizes s = sumBlobWeighted s

/-! ### List bookkeeping lemmas for the ledger invariant -/

lemma countP_eq_sum_map {α : Type} (q : α → Bool) (l : List α) :
    l.countP q = (l.map (fun a => if q a then 1 else 0)).sum := by
  induction l with
  | nil => simp [List.countP_nil]
  | cons a t ih => simp [List.countP_cons, ih]; omega

lemma sum_map_eraseP {α : Type} (p : α → Bool) (f : α → Nat) :
    ∀ (l : List α) (x : α), l.find? p = some x →
      (l.map f).sum = f x + ((l.eraseP p).map f).sum := by
  intro l
  induction l with
  | nil => intro x h; simp at h
  | cons a t ih =>
      intro x h
      by_cases hpa : p a
      · rw [List.find?_cons_of_pos _ hpa] at h
        cases h
        rw [List.eraseP_cons_of_pos hpa]
        simp
      · rw [List.find?_cons_of_neg _ hpa] at h
        rw [List.eraseP_cons_of_neg hpa]
        simp only [List.map_cons, List.sum_cons]
        rw [ih x h]
        omega

lemma sum_map_find?_filter {α : Type} (k : α → Nat) (f : α → Nat) (d : Nat) :
    ∀ (l : List α), (l.map k).Nodup →
      ∀ x, l.find? (fun a => k a == d) = some x →
      (l.map f).sum = f x + ((l.filter (fun a => k a != d)).map f).sum := by
  intro l
  induction l with
  | nil => intro _ x h; simp at h
  | cons a t ih =>
      intro hnd x h
      rw [List.map_cons, List.nodup_cons] at hnd
      by_cases hka : k a = d
      · rw [List.find?_cons_of_pos _ (by simpa using hka)] at h
        cases h
        have ht : t.filter (fun a' => k a' != d) = t := by
          apply List.filter_eq_self.2
          intro b hb
          have : k b ≠ d := by
            intro hkb
            exact hnd.1 (by rw [hka, ← hkb]; exact List.mem_map.2 ⟨b, hb, rfl⟩)
          simpa using this
        rw [List.filter_cons_of_neg (by simpa using hka), ht]
        simp
      · rw [List.find?_cons_of_neg _ (by simpa using hka)] at h
        rw [List.filter_cons_of_pos (by simpa using hka)]
        simp only [List.map_cons, List.sum_cons]
        rw [ih hnd.2 x h]
        omega

lemma countP_eraseP {α : Type} (p q : α → Bool) (l : List α) (x : α)
    (h : l.find? p = some x) :
    l.countP q = (if q x then 1 else 0) + (l.eraseP p).countP q := by
  rw [countP_eq_sum_map, countP_eq_sum_map,
    sum_map_eraseP p (fun a => if q a then 1 else 0) l x h]

lemma countP_filter_key {α : Type} (k : α → Nat) (q : α → Bool) (d : Nat)
    (l : List α) (hnd : (l.map k).Nodup) (x : α)
    (h : l.find? (fun a => k a == d) = some x) :
    l.countP q = (if q x then 1 else 0) +
      (l.filter (fun a => k a != d)).countP q := by
  rw [countP_eq_sum_map, countP_eq_sum_map,
    sum_map_find?_filter k (fun a => if q a then 1 else 0) d l hnd x h]

lemma nodup_keys_filter {α : Type} (k : α → Nat) (d : Nat) (l : List α)
    (hnd : (l.map k).Nodup) :
    ((l.filter (fun a => k a != d)).map k).Nodup :=
  ((List.filter_sublist l).map k).nodup hnd

lemma not_mem_keys_filter {α : Type} (k : α → Nat) (d : Nat) (l : List α) :
    d ∉ (l.filter (fun a => k a != d)).map k := by
  intro hd
  rcases List.mem_map.1 hd with ⟨a, ha, hka⟩
  rcases List.mem_filter.1 ha with ⟨-, hne⟩
  have : k a ≠ d := by simpa using hne
  exact this hka

lemma mem_of_mem_filter_key {α : Type} (k : α → Nat) (d : Nat) {l : List α}
    {a : α} (h : a ∈ l.filter (fun a' => k a' != d)) : a ∈ l ∧ k a ≠ d := by
  rcases List.mem_filter.1 h with ⟨hmem, hne⟩
  have : k a ≠ d := by simpa using hne
  exact ⟨hmem, this⟩

/-! ### Preservation of the ledger invariant -/

lemma inv_resolve_or_create {s s' : SysState} {d sz i : Nat}
    (hinv : Inv s) (h : resolve_or_create s d sz i = some s') : Inv s' := by
  obtain ⟨hnd, hlink, hcount, hpos, hsum⟩ := hinv
  unfold resolve_or_create at h
  split at h
  next b hfind =>
    split at h
    next hsz =>
      injection h with h'
      subst h'
      have hbmem : b ∈ s.blobs := List.mem_of_find?_eq_some hfind
      have hbhash : b.content_hash = d := by
        have := List.find?_some hfind
        simpa using this
      refine ⟨?_, ?_, ?_, ?_, ?_⟩
      · simp only [List.map_cons, List.nodup_cons]
        refine ⟨?_, nodup_keys_filter Blob.content_hash d s.blobs hnd⟩
        show b.content_hash ∉ _
        rw [hbhash]
        exact not_mem_keys_filter Blob.content_hash d s.blobs
      · intro r hr
        rcases List.mem_cons.1 hr with hr | hr
        · subst hr
          exact ⟨{ b with reference_count := b.reference_count + 1 },
            List.mem_cons_self _ _, by simpa using hbhash, by simpa using hsz.symm⟩
        · obtain ⟨b₀, hb₀mem, hb₀hash, hb₀size⟩ := hlink r hr
          by_cases hcase : b₀.content_hash = d
          · have hb₀b : b₀ = b :=
              List.inj_on_of_nodup_map hnd hb₀mem hbmem (hcase.trans hbhash.symm)
            subst hb₀b
            exact ⟨{ b₀ with reference_count := b₀.reference_count + 1 },
              List.mem_cons_self _ _, by simpa using hb₀hash, by simpa using hb₀size⟩
          · refine ⟨b₀, List.mem_cons_of_mem _ (List.mem_filter.2 ⟨hb₀mem, ?_⟩),
              hb₀hash, hb₀size⟩
            simpa using hcase
      · intro b' hb'
        rcases List.mem_cons.1 hb' with hb' | hb'
        · subst hb'
          have hc := hcount b hbmem
          rw [hbhash] at hc
          simp [List.countP_cons, hbhash, hc]
        · obtain ⟨hb'mem, hb'ne⟩ := mem_of_mem_filter_key Blob.content_hash d hb'
          have hc := hcount b' hb'mem
          simp only [List.countP_cons]
          have hdne : d ≠ b'.content_hash := fun hh => hb'ne hh.symm
          simp [hdne, ← hc]
      · intro b' hb'
        rcases List.mem_cons.1 hb' with hb' | hb'
        · subst hb'; simp
        · obtain ⟨hb'mem, -⟩ := mem_of_mem_filter_key Blob.content_hash d hb'
          exact hpos b' hb'mem
      · have hsplit := sum_map_find?_filter Blob.content_hash
          (fun b => b.reference_count * b.size_bytes) d s.blobs hnd b hfind
        simp only [sumRecSizes, sumBlobWeighted, List.map_cons, List.sum_cons] at hsplit hsum ⊢
        rw [Nat.succ_mul]
        omega
    next hsz => exact absurd h (by simp)
  next hfind =>
    injection h with h'
    subst h'
    have hnone : ∀ b' ∈ s.blobs, b'.content_hash ≠ d := by
      intro b' hb'
      have := List.find?_eq_none.1 hfind b' hb'
      simpa using this
    have hreczero : s.records.countP (fun r => r.content_hash == d) = 0 := by
      apply List.countP_eq_zero.2
      intro r hr
      obtain ⟨b₀, hb₀mem, hb₀hash, -⟩ := hlink r hr
      have : r.content_hash ≠ d := fun hh => hnone b₀ hb₀mem (hb₀hash.trans hh)
      simpa using this
    refine ⟨?_, ?_, ?_, ?_, ?_⟩
    · simp only [List.map_cons, List.nodup_cons]
      refine ⟨?_, hnd⟩
      intro hmem
      rcases List.mem_map.1 hmem with ⟨b', hb'mem, hb'hash⟩
      exact hnone b' hb'mem hb'hash
    · intro r hr
      rcases List.mem_cons.1 hr with hr | hr
      · subst hr
        exact ⟨⟨d, sz, 1⟩, List.mem_cons_self _ _, rfl, rfl⟩
      · obtain ⟨b₀, hb₀mem, hb₀hash, hb₀size⟩ := hlink r hr
        exact ⟨b₀, List.mem_cons_of_mem _ hb₀mem, hb₀hash, hb₀size⟩
    · intro b' hb'
      rcases List.mem_cons.1 hb' with hb' | hb'
      · subst hb'
        simp only [List.countP_cons]
        simp [hreczero]
      · have hc := hcount b' hb'
        simp only [List.countP_cons]
        have hdne : d ≠ b'.content_hash := fun hh => hnone b' hb' hh.symm
        simp [hdne, ← hc]
    · intro b' hb'
      rcases List.mem_cons.1 hb' with hb' | hb'
      · subst hb'; simp
      · exact hpos b' hb'
    · simp only [sumRecSizes, sumBlobWeighted, List.map_cons, List.sum_cons] at hsum ⊢
      omega

lemma inv_release {s s' : SysState} {rid : Nat}
    (hinv : Inv s) (h : release s rid = some s') : Inv s' := by
  obtain ⟨hnd, hlink, hcount, hpos, hsum⟩ := hinv
  unfold release at h
  split at h
  next hrfind => exact absurd h (by simp)
  next r hrfind =>
    split at h
    next hbfind => exact absurd h (by simp)
    next b hbfind =>
      have hrmem : r ∈ s.records := List.mem_of_find?_eq_some hrfind
      have hbmem : b ∈ s.blobs := List.mem_of_find?_eq_some hbfind
      have hbhash : b.content_hash = r.content_hash := by
        have := List.find?_some hbfind
        simpa using this
      have hbsize : b.size_bytes = r.size_bytes := by
        obtain ⟨b₀, hb₀mem, hb₀hash, hb₀size⟩ := hlink r hrmem
        have hb₀b : b₀ = b :=
          List.inj_on_of_nodup_map hnd hb₀mem hbmem (hb₀hash.trans hbhash.symm)
        subst hb₀b
        exact hb₀size
      have hrc : b.reference_count = 1 +
          (s.records.eraseP (fun r' => r'.id == rid)).countP
            (fun r' => r'.content_hash == b.content_hash) := by
        have hsplit := countP_eraseP (fun r' => r'.id == rid)
          (fun r' => r'.content_hash == b.content_hash) s.records r hrfind
        rw [if_pos (by simp [hbhash])] at hsplit
        rw [hcount b hbmem, hsplit]
      have hsumrec : sumRecSizes s = r.size_bytes +
          ((s.records.eraseP (fun r' => r'.id == rid)).map FileRecord.size_bytes).sum :=
        sum_map_eraseP (fun r' : FileRecord => r'.id == rid)
          FileRecord.size_bytes s.records r hrfind
      have hsplitB := sum_map_find?_filter Blob.content_hash
        (fun b => b.reference_count * b.size_bytes) r.content_hash s.blobs hnd b hbfind
      split at h
      next hle =>
        -- reference count reaches zero: the blob is reaped
        injection h with h'
        subst h'
        have hrc1 : b.reference_count = 1 := le_antisymm hle (hpos b hbmem)
        have herased0 : (s.records.eraseP (fun r' => r'.id == rid)).countP
            (fun r' => r'.content_hash == b.content_hash) = 0 := by omega
        refine ⟨?_, ?_, ?_, ?_, ?_⟩
        · exact nodup_keys_filter Blob.content_hash r.content_hash s.blobs hnd
        · intro r' hr'
          have hr'mem : r' ∈ s.records := (List.eraseP_sublist s.records).subset hr'
          obtain ⟨b₀, hb₀mem, hb₀hash, hb₀size⟩ := hlink r' hr'mem
          have hb₀ne : b₀.content_hash ≠ r.content_hash := by
            intro hcase
            have hb₀b : b₀ = b :=
              List.inj_on_of_nodup_map hnd hb₀mem hbmem (hcase.trans hbhash.symm)
            subst hb₀b
            have := List.countP_eq_zero.1 herased0 r' hr'
            exact this (by simp [hb₀hash])
          exact ⟨b₀, List.mem_filter.2 ⟨hb₀mem, by simpa using hb₀ne⟩, hb₀hash, hb₀size⟩
        · intro b' hb'
          obtain ⟨hb'mem, hb'ne⟩ := mem_of_mem_filter_key Blob.content_hash r.content_hash hb'
          have hsplit := countP_eraseP (fun r' : FileRecord => r'.id == rid)
            (fun r' => r'.content_hash == b'.content_hash) s.records r hrfind
          have hcond : r.content_hash ≠ b'.content_hash := fun hh => hb'ne hh.symm
          rw [if_neg (by simpa using hcond)] at hsplit
          dsimp only
          rw [hcount b' hb'mem, hsplit]
          omega
        · intro b' hb'
          obtain ⟨hb'mem, -⟩ := mem_of_mem_filter_key Blob.content_hash r.content_hash hb'
          exact hpos b' hb'mem
        · simp only [hrc1, one_mul] at hsplitB
          simp only [sumRecSizes, sumBlobWeighted] at hsumrec hsplitB hsum ⊢
          omega
      next hgt =>
        -- other references remain: the count is decremented
        injection h with h'
        subst h'
        refine ⟨?_, ?_, ?_, ?_, ?_⟩
        · simp only [List.map_cons, List.nodup_cons]
          refine ⟨?_, nodup_keys_filter Blob.content_hash r.content_hash s.blobs hnd⟩
          show b.content_hash ∉ _
          rw [hbhash]
          exact not_mem_keys_filter Blob.content_hash r.content_hash s.blobs
        · intro r' hr'
          have hr'mem : r' ∈ s.records := (List.eraseP_sublist s.records).subset hr'
          obtain ⟨b₀, hb₀mem, hb₀hash, hb₀size⟩ := hlink r' hr'mem
          by_cases hcase : b₀.content_hash = r.content_hash
          · have hb₀b : b₀ = b :=
              List.inj_on_of_nodup_map hnd hb₀mem hbmem (hcase.trans hbhash.symm)
            subst hb₀b
            exact ⟨{ b₀ with reference_count := b₀.reference_count - 1 },
              List.mem_cons_self _ _, by simpa using hb₀hash, by simpa using hb₀size⟩
          · refine ⟨b₀, List.mem_cons_of_mem _ (List.mem_filter.2 ⟨hb₀mem, ?_⟩),
              hb₀hash, hb₀size⟩
            simpa using hcase
        · intro b' hb'
          rcases List.mem_cons.1 hb' with hb' | hb'
          · subst hb'
            simp only
            omega
          · obtain ⟨hb'mem, hb'ne⟩ := mem_of_mem_filter_key Blob.content_hash r.content_hash hb'
            have hsplit := countP_eraseP (fun r' : FileRecord => r'.id == rid)
              (fun r' => r'.content_hash == b'.content_hash) s.records r hrfind
            have hcond : r.content_hash ≠ b'.content_hash := fun hh => hb'ne hh.symm
            rw [if_neg (by simpa using hcond)] at hsplit
            dsimp only
            rw [hcount b' hb'mem, hsplit]
            omega
        · intro b' hb'
          rcases List.mem_cons.1 hb' with hb' | hb'
          · subst hb'
            simp only
            omega
          · obtain ⟨hb'mem, -⟩ := mem_of_mem_filter_key Blob.content_hash r.content_hash hb'
            exact hpos b' hb'mem
        · have hmul : b.reference_count * b.size_bytes =
              (b.reference_count - 1) * b.size_bytes + b.size_bytes := by
            have hge : b.size_bytes ≤ b.reference_count * b.size_bytes :=
              Nat.le_mul_of_pos_left _ (by omega)
            rw [Nat.sub_one_mul]
            omega
          simp only [hmul] at hsplitB
          simp only [sumRecSizes, sumBlobWeighted, List.map_cons, List.sum_cons]
            at hsumrec hsplitB hsum ⊢
          omega

lemma inv_init : Inv ⟨[], []⟩ := by
  refine ⟨by simp, by simp, by simp, by simp, rfl⟩

lemma inv_reachable {s : SysState} (h : Reachable s) : Inv s := by
  induction h with
  | init => exact inv_init
  | upload _ hstep ih => exact inv_resolve_or_create ih hstep
  | delete _ hstep ih => exact inv_release ih hstep

/-! ### Query-segment membership lemmas -/

lemma mem_optStringParam {key : String} {o : Option String} {k v : String} :
    (k, v) ∈ optStringParam key o ↔ (k = key ∧ o = some v ∧ v ≠ "") := by
  cases o with
  | none => simp [optStringParam]
  | some s =>
      by_cases hs : s = ""
      · subst hs
        constructor
        · intro hmem
          simp [optStringParam] at hmem
        · rintro ⟨-, hv, hne⟩
          exact absurd (Option.some_injective _ hv).symm hne
      · simp only [optStringParam, if_neg hs, List.mem_singleton, Prod.mk.injEq,
          Option.some.injEq]
        constructor
        · rintro ⟨rfl, rfl⟩
          exact ⟨rfl, rfl, hs⟩
        · rintro ⟨rfl, rfl, -⟩
          exact ⟨rfl, rfl⟩

lemma mem_optNumParam {key : String} {o : Option Nat} {k v : String} :
    (k, v) ∈ optNumParam key o ↔ (k = key ∧ ∃ n, o = some n ∧ v = toString n) := by
  cases o with
  | none => simp [optNumParam]
  | some n =>
      simp only [optNumParam, List.mem_singleton, Prod.mk.injEq, Option.some.injEq]
      constructor
      · rintro ⟨rfl, rfl⟩
        exact ⟨rfl, n, rfl, rfl⟩
      · rintro ⟨rfl, m, rfl, rfl⟩
        exact ⟨rfl, rfl⟩

lemma mem_optTruthyNumParam {key : String} {o : Option Nat} {k v : String} :
    (k, v) ∈ optTruthyNumParam key o ↔
      (k = key ∧ ∃ n, o = some n ∧ n ≠ 0 ∧ v = toString n) := by
  cases o with
  | none => simp [optTruthyNumParam]
  | some n =>
      by_cases hn : n = 0
      · subst hn
        constructor
        · intro hmem
          simp [optTruthyNumParam] at hmem
        · rintro ⟨-, m, hm, hne, -⟩
          exact absurd (Option.some_injective _ hm).symm hne
      · simp only [optTruthyNumParam, if_neg hn, List.mem_singleton, Prod.mk.injEq,
          Option.some.injEq]
        constructor
        · rintro ⟨rfl, rfl⟩
          exact ⟨rfl, n, rfl, hn, rfl⟩
        · rintro ⟨rfl, m, rfl, -, rfl⟩
          exact ⟨rfl, rfl⟩

/-! ## Claim theorems -/

/-- C1: a file strictly larger than 10 MiB makes `uploadFile` throw with an
empty request trace (no POST is issued), and a file of at most 10 MiB —
the exact 10 MiB boundary included — issues the `POST /files/` request and
is not rejected client-side. -/
theorem uploadFile_size_ceiling (fileSize : Nat) :
    (MAX_FILE_SIZE < fileSize →
      (uploadFile fileSize).2 = [] ∧
      (uploadFile fileSize).1 = Except.error "Maximum file size allowed is 10MB") ∧
    (fileSize ≤ MAX_FILE_SIZE →
      (uploadFile fileSize).2 = ["POST " ++ API_URL ++ "/files/"] ∧
      (uploadFile fileSize).1 = Except.ok ()) := by
  constructor
  · intro h
    unfold uploadFile
    rw [if_pos h]
    exact ⟨rfl, rfl⟩
  · intro h
    unfold uploadFile
    rw [if_neg (not_lt.2 h)]
    exact ⟨rfl, rfl⟩

/-- Witness for C1 at the boundary: 10 MiB + 1 byte yields an empty trace,
and exactly 10 MiB issues the POST. -/
theorem uploadFile_size_ceiling_witness :
    (uploadFile 10485761).2 = [] ∧
    (uploadFile 10485760).2 = ["POST " ++ API_URL ++ "/files/"] :=
  ⟨((uploadFile_size_ceiling 10485761).1 (by decide)).1,
   ((uploadFile_size_ceiling 10485760).2 (by decide)).1⟩

/-- C2 (counterexample): a params object that provides `search = ""` and
`date_after = 0` produces a query string whose only key is `page` — the
provided empty-string search and epoch-0 date_after are dropped by the
JS-truthiness guards of the source, contradicting the claim that every provided
filter appears. -/
theorem getFiles_query_counterexample :
    (buildQuery { search := some "", date_after := some 0 }).map Prod.fst = ["page"] :=
  rfl

/-- C2 (amended): `page` is always present; `min_size`/`max_size` appear
iff provided (a provided 0 included); `search`/`filename`/`file_type`
appear iff provided and non-empty; `date_after`/`date_before` appear as
`date_after_epoch`/`date_before_epoch` iff provided and non-zero. -/
theorem getFiles_query_amended (p : GetFilesParams) (s v : String) :
    (("page", toString (p.page.getD 1)) ∈ buildQuery p) ∧
    ((("search", s) ∈ buildQuery p) ↔ (p.search = some s ∧ s ≠ "")) ∧
    ((("filename", s) ∈ buildQuery p) ↔ (p.filename = some s ∧ s ≠ "")) ∧
    ((("file_type", s) ∈ buildQuery p) ↔ (p.file_type = some s ∧ s ≠ "")) ∧
    ((("min_size", v) ∈ buildQuery p) ↔ (∃ n, p.min_size = some n ∧ v = toString n)) ∧
    ((("max_size", v) ∈ buildQuery p) ↔ (∃ n, p.max_size = some n ∧ v = toString n)) ∧
    ((("date_after_epoch", v) ∈ buildQuery p) ↔
      (∃ n, p.date_after = some n ∧ n ≠ 0 ∧ v = toString n)) ∧
    ((("date_before_epoch", v) ∈ buildQuery p) ↔
      (∃ n, p.date_before = some n ∧ n ≠ 0 ∧ v = toString n)) := by
  refine ⟨List.mem_cons_self _ _, ?_, ?_, ?_, ?_, ?_, ?_, ?_⟩ <;>
    simp [buildQuery, mem_optStringParam, mem_optNumParam, mem_optTruthyNumParam]

/-- C4 (counterexample): a failing file-types request is swallowed —
`getFileTypes` resolves with `ok []` on a rejected GET, contradicting the
claim that it never resolves successfully when the request errored. -/
theorem getFileTypes_counterexample :
    getFileTypes (Except.error "NetworkError") = Except.ok [] :=
  rfl

/-- C4 (amended): `getFileTypes` never rejects — any failure of the
underlying GET resolves (after logging) with the empty list, and a success
resolves with `response.data.file_types || []`. -/
theorem getFileTypes_amended :
    (∀ e : String, getFileTypes (Except.error e) = Except.ok []) ∧
    (∀ d : Option (List String), getFileTypes (Except.ok d) = Except.ok (d.getD [])) :=
  ⟨fun _ => rfl, fun _ => rfl⟩

/-- C5: when the `DELETE /files/{id}/` request fails, `deleteFile` rejects
with that failure rather than resolving; an unknown id answered with
`NotFoundError` never deletes silently at the service boundary. -/
theorem deleteFile_propagates (server : String → Except String Unit) (id e : String)
    (h : server (API_URL ++ "/files/" ++ id ++ "/") = Except.error e) :
    deleteFile server id = Except.error e ∧ (deleteFile server id).isOk = false := by
  unfold deleteFile
  rw [h]
  exact ⟨rfl, rfl⟩

/-- Witness for C5: a server answering `NotFoundError` on every URL makes
`deleteFile` of an unknown id reject. -/
theorem deleteFile_propagates_witness :
    deleteFile (fun _ => Except.error "NotFoundError") "unknown-id" =
      Except.error "NotFoundError" ∧
    (deleteFile (fun _ => Except.error "NotFoundError") "unknown-id").isOk = false :=
  deleteFile_propagates (fun _ => Except.error "NotFoundError") "unknown-id"
    "NotFoundError" rfl

/-- C6: whenever the storage-stats query has failed (loading over, query in
error), `StorageStats` renders the error panel — a value, not a thrown
exception — so the failure cannot propagate to the hosting page. -/
theorem storageStats_error_degrades (stats : Option StorageStatsData) :
    renderStorageStats false true stats =
      Rendered.errorPanel "Failed to load storage statistics" :=
  rfl

/-- C3: in every reachable system state the snapshot field `total_space_saved`
equals Σ FileRecord.size_bytes − Σ Blob.size_bytes (the blobs being
pairwise distinct by digest), and this quantity is never negative. -/
theorem reachable_space_saved (s : SysState) (h : Reachable s) :
    total_space_saved s = (sumRecSizes s : ℤ) - (total_size s : ℤ) ∧
    (s.blobs.map Blob.content_hash).Nodup ∧
    0 ≤ total_space_saved s := by
  obtain ⟨hnd, -, -, hpos, hsum⟩ := inv_reachable h
  refine ⟨rfl, hnd, ?_⟩
  have hle : total_size s ≤ sumRecSizes s := by
    rw [hsum]
    unfold total_size sumBlobWeighted
    refine List.sum_le_sum ?_
    intro b hb
    exact Nat.le_mul_of_pos_left _ (hpos b hb)
  unfold total_space_saved
  omega

/-- Witness for C3: a state reached by one upload (digest 7, 100 bytes)
has non-negative space saved. -/
theorem reachable_space_saved_witness :
    0 ≤ total_space_saved ⟨[⟨7, 100, 1⟩], [⟨1, 7, 100⟩]⟩ :=
  (reachable_space_saved _
    (@Reachable.upload ⟨[], []⟩ ⟨[⟨7, 100, 1⟩], [⟨1, 7, 100⟩]⟩ 7 100 1
      Reachable.init rfl)).2.2

/-- C7: `getFiles` always sends a `page` parameter, defaulting to 1 when
none is given; `totalPages` is the ceiling of `count / 10`; and
`handlePageChange` moves to the requested page exactly when it lies in
`[1, totalPages]`, keeping the current page otherwise. -/
theorem pagination_contract (p : GetFilesParams) (c cur tot req : Nat) :
    (("page", toString (p.page.getD 1)) ∈ buildQuery p) ∧
    (c ≤ 10 * totalPages c ∧ ∀ m, c ≤ 10 * m → totalPages c ≤ m) ∧
    ((1 ≤ req ∧ req ≤ tot) → handlePageChange cur tot req = req) ∧
    (¬ (1 ≤ req ∧ req ≤ tot) → handlePageChange cur tot req = cur) := by
  refine ⟨List.mem_cons_self _ _, ⟨?_, ?_⟩, ?_, ?_⟩
  · unfold totalPages
    omega
  · intro m hm
    unfold totalPages
    omega
  · intro h
    unfold handlePageChange
    rw [if_pos h]
  · intro h
    unfold handlePageChange
    rw [if_neg h]

/-- Witness for C7: page defaults to 1; 25 records fit in 3 pages; page 4
of 5 is taken, page 6 of 5 is refused. -/
theorem pagination_contract_witness :
    ("page", toString ((1 : Nat))) ∈ buildQuery {} ∧
    handlePageChange 3 5 4 = 4 ∧ handlePageChange 3 5 6 = 3 ∧ totalPages 25 ≤ 3 :=
  ⟨(pagination_contract {} 0 0 0 0).1,
   (pagination_contract {} 0 3 5 4).2.2.1 (by decide),
   (pagination_contract {} 0 3 5 6).2.2.2 (by decide),
   (pagination_contract {} 25 0 0 0).2.1.2 3 (by decide)⟩

/-- C8: `handleSizeChange` keeps the size range well-formed: the stored
pair always satisfies min ≤ max, the upper bound being replaced by `min`
exactly when `min > max`. -/
theorem handleSizeChange_invariant (mn mx : WithTop Nat) :
    (handleSizeChange mn mx).1 ≤ (handleSizeChange mn mx).2 ∧
    (mx < mn → handleSizeChange mn mx = (mn, mn)) ∧
    (mn ≤ mx → handleSizeChange mn mx = (mn, mx)) := by
  refine ⟨?_, ?_, ?_⟩
  · simp only [handleSizeChange]
    split
    · exact le_refl mn
    · next hlt => exact le_of_not_lt hlt
  · intro h
    simp only [handleSizeChange]
    rw [if_pos h]
  · intro h
    simp only [handleSizeChange]
    rw [if_neg (not_lt.2 h)]

/-- Witness for C8: an inverted pair (min 5, max 3) is stored as (5, 5);
min 2 with no maximum is stored unchanged. -/
theorem handleSizeChange_witness :
    handleSizeChange ((5 : Nat) : WithTop Nat) ((3 : Nat) : WithTop Nat) =
      (((5 : Nat) : WithTop Nat), ((5 : Nat) : WithTop Nat)) ∧
    handleSizeChange ((2 : Nat) : WithTop Nat) ⊤ = (((2 : Nat) : WithTop Nat), ⊤) :=
  ⟨(handleSizeChange_invariant _ _).2.1 (by exact_mod_cast (by norm_num : (3 : Nat) < 5)),
   (handleSizeChange_invariant _ _).2.2 le_top⟩

/-- C9: for both dates provided, `handleDateChange` stores start-of-day of
the start and end-of-day of (`start` when `end < start`, else `end`), and
the stored bounds always satisfy adjustedStart ≤ adjustedEnd. -/
theorem handleDateChange_invariant (s e : Nat) :
    handleDateChange (some s) (some e) =
      (some (startOfDay s), some (endOfDay (if e < s then s else e))) ∧
    startOfDay s ≤ endOfDay (if e < s then s else e) := by
  constructor
  · by_cases h : e < s <;> simp [handleDateChange, h]
  · by_cases h : e < s
    · rw [if_pos h]
      unfold startOfDay endOfDay
      omega
    · rw [if_neg h]
      unfold startOfDay endOfDay
      omega

/-- C10: the efficiency figure is total: it is 0 when `total_references`
is 0, and otherwise `Math.round((refs − files') / refs * 100)` where
`files'` substitutes 1 for a zero `total_files` — no division by zero can
occur. -/
theorem efficiency_total (st : StorageStatsData) :
    efficiency (some st) =
      (if st.total_references = 0 then 0
       else jsRound (((st.total_references : ℚ) -
           (((if st.total_files = 0 then 1 else st.total_files) : Nat) : ℚ)) /
         (st.total_references : ℚ) * 100)) :=
  rfl

end FileVault
